import Mathlib

/-!
Shallow embedding of the context-assembly core of DiscoveryRAGAgentV2
(`server/app/rag/dynamic_context_selector.py` and
`server/app/rag/hierarchical_indexer.py`).

Modelling conventions:
* Python `float` values are modelled as exact rationals (`ℚ`); Python's
  `int(x)` truncation toward zero on a float is `pyInt`.
* Python `dict`s whose key set is always the five fixed context sources are
  modelled as functions `Source → _` together with the fixed
  insertion/iteration order `sourceOrder` (the order in which the priority
  matrices of `_get_priorities_by_objective` list their keys, which is the
  order every derived dict in `_allocate_tokens` inherits).
* A Python `ZeroDivisionError` is modelled by an `Option` result
  (`none` = the call raises; `some` = the call returns).
-/

/-- The five context sources: the fixed key set of the per-source dicts of
`dynamic_context_selector.py`. -/
inductive Source where
  | chunks
  | product_guidelines
  | design_guidelines
  | benchmarks
  | team_objectives
deriving DecidableEq, Fintype, Repr

/-- The fixed insertion (= iteration) order of the per-source dicts. -/
def sourceOrder : List Source :=
  [Source.chunks, Source.product_guidelines, Source.design_guidelines,
   Source.benchmarks, Source.team_objectives]

/-- Python `int(x)` applied to a (rational-modelled) float: truncation toward
zero (floor for non-negative values, ceiling for negative ones). -/
def pyInt (q : ℚ) : ℤ :=
  if 0 ≤ q then ⌊q⌋ else ⌈q⌉

/-- Dict update `d[s] = v` for a dict modelled as a function. -/
def setVal (a : Source → ℤ) (s : Source) (v : ℤ) : Source → ℤ :=
  fun x => if x = s then v else a x

/-- Python `max(d, key=d.get)`: the first key attaining the maximal value
(ties keep the earliest key, as `max` does).  The `[]` case is unreachable at
every use site (`max` on an empty dict would raise). -/
def argmaxKey (f : Source → ℚ) : List Source → Source
  | [] => Source.chunks
  | x :: xs => xs.foldl (fun best c => if f best < f c then c else best) x

/-- `_allocate_tokens`, line 534: the keys of
`active_priorities = {k: v for k, v in priorities.items() if initial_tokens[k] > 0}`. -/
def activeSources (t : Source → ℤ) : List Source :=
  sourceOrder.filter (fun s => decide (0 < t s))

/-- `_allocate_tokens`, line 541: `total_priority = sum(active_priorities.values())`. -/
def totalPriority (p : Source → ℚ) (t : Source → ℤ) : ℚ :=
  ((activeSources t).map p).sum

/-- `sum(allocation.values())` over the five fixed sources. -/
def sumAlloc (a : Source → ℤ) : ℤ :=
  (sourceOrder.map a).sum

/-- `_allocate_tokens`, lines 544-550: the proportional first pass
`allocation[source] = int(normalized_priorities[source] * available_tokens)`
for active sources and `0` otherwise. -/
def firstPass (B : ℤ) (p : Source → ℚ) (t : Source → ℤ) : Source → ℤ :=
  fun s => if 0 < t s then pyInt (p s / totalPriority p t * B) else 0

/-- `_allocate_tokens`, lines 533-557: the allocation right after the rounding
fix-up (`adjustment` added to the active source with the largest priority) and
before cap enforcement.  The empty-active early return is included. -/
def preCapAlloc (B : ℤ) (p : Source → ℚ) (t : Source → ℤ) : Source → ℤ :=
  if activeSources t = [] then fun _ => 0
  else
    let a0 := firstPass B p t
    let adj := B - sumAlloc a0
    if adj = 0 then a0
    else setVal a0 (argmaxKey p (activeSources t)) (a0 (argmaxKey p (activeSources t)) + adj)

/-- `_allocate_tokens`, lines 567-568: the redistribution candidates of a
cap-clipped source `s`: active sources other than `s` whose current allocation
is strictly below their content (`allocation[k] < initial_tokens[k]`),
evaluated after `allocation[s]` was clipped to `initial_tokens[s]`. -/
def capCandidates (t : Source → ℤ) (active : List Source) (s : Source)
    (a : Source → ℤ) : List Source :=
  active.filter (fun k => decide (k ≠ s ∧ a k < t k))

/-- `_allocate_tokens`, lines 573-577: the inner redistribution loop.  Each
candidate in order receives `share = int(priority / total_candidate_priority * excess)`
and the running `excess` is reduced by `share` (so later candidates see the
already-reduced excess).  Returns the updated allocation and the remaining
excess. -/
def distLoop (p : Source → ℚ) (tc : ℚ) :
    List Source → (Source → ℤ) × ℤ → (Source → ℤ) × ℤ
  | [], st => st
  | c :: rest, (a, e) =>
    distLoop p tc rest (setVal a c (a c + pyInt (p c / tc * e)), e - pyInt (p c / tc * e))

/-- `_allocate_tokens`, lines 560-582: one iteration of the cap-enforcement
loop for source `s`.  If the current allocation exceeds the content, clip it,
redistribute the excess over the candidates (raising — `none` — when the
candidate priority sum is zero), and give any positive remainder to the
candidate with the largest priority. -/
def capStep (p : Source → ℚ) (t : Source → ℤ) (active : List Source) (s : Source)
    (a : Source → ℤ) : Option (Source → ℤ) :=
  if t s < a s then
    let a1 := setVal a s (t s)
    let cands := capCandidates t active s a1
    if cands = [] then some a1
    else if (cands.map p).sum = 0 then none
    else
      let st := distLoop p ((cands.map p).sum) cands (a1, a s - t s)
      if 0 < st.2 then
        some (setVal st.1 (argmaxKey p cands) (st.1 (argmaxKey p cands) + st.2))
      else some st.1
  else some a

/-- `_allocate_tokens`, lines 560-582: the single pass of cap enforcement over
`allocation.items()` in dict order; the value each source is checked against is
the current one (redistributed excess received before a source's own check is
seen by that check). -/
def capLoop (p : Source → ℚ) (t : Source → ℤ) (active : List Source) :
    List Source → (Source → ℤ) → Option (Source → ℤ)
  | [], a => some a
  | s :: rest, a => (capStep p t active s a).bind (capLoop p t active rest)

/-- `_allocate_tokens` (lines 516-584): distributes `available_tokens` over the
five sources by priority, with rounding fix-up, cap clipping and single-pass
excess redistribution.  `none` models a `ZeroDivisionError` (all-zero active
priority sum, or an all-zero candidate priority sum during redistribution). -/
def allocate_tokens (B : ℤ) (p : Source → ℚ) (t : Source → ℤ) :
    Option (Source → ℤ) :=
  if activeSources t = [] then some (fun _ => 0)
  else if totalPriority p t = 0 then none
  else capLoop p t (activeSources t) sourceOrder (preCapAlloc B p t)

/-- The five allocation values in source order, for stating concrete runs
decidably. -/
def viewAlloc (a : Source → ℤ) : ℤ × ℤ × ℤ × ℤ × ℤ :=
  (a Source.chunks, a Source.product_guidelines, a Source.design_guidelines,
   a Source.benchmarks, a Source.team_objectives)

/-- `_get_priorities_by_objective` (lines 472-514): the fixed priority matrix,
with the `informative` row as fallback for unknown objectives. -/
def get_priorities_by_objective (objective : String) : Source → ℚ :=
  if objective = "informative" then fun s =>
    match s with
    | .chunks => 0.85
    | .product_guidelines => 0.15
    | _ => 0.0
  else if objective = "hypothesis" then fun s =>
    match s with
    | .chunks => 0.5
    | .product_guidelines => 0.25
    | .design_guidelines => 0.25
    | _ => 0.0
  else if objective = "benchmark" then fun s =>
    match s with
    | .chunks => 0.5
    | .product_guidelines => 0.15
    | .design_guidelines => 0.25
    | .benchmarks => 0.1
    | _ => 0.0
  else if objective = "objectives" then fun s =>
    match s with
    | .chunks => 0.5
    | .product_guidelines => 0.25
    | .team_objectives => 0.25
    | _ => 0.0
  else fun s =>
    match s with
    | .chunks => 0.85
    | .product_guidelines => 0.15
    | _ => 0.0

/-- Companion predicate to `capLoop`, recomputing the same run: at every clip
event, do all redistribution candidates lie strictly later in the iteration
order (in `rest`) than the clipped source?  Tokens are then only ever added to
sources whose own cap check has not yet run. -/
def fwdLoop (p : Source → ℚ) (t : Source → ℤ) (active : List Source) :
    List Source → (Source → ℤ) → Bool
  | [], _ => true
  | s :: rest, a =>
    (if t s < a s then
        (capCandidates t active s (setVal a s (t s))).all (fun c => decide (c ∈ rest))
      else true)
      && (match capStep p t active s a with
          | some a2 => fwdLoop p t active rest a2
          | none => true)

/-- `fwdLoop` started the way `_allocate_tokens` starts its cap-enforcement
pass. -/
def forwardRedistOnly (B : ℤ) (p : Source → ℚ) (t : Source → ℤ) : Bool :=
  if activeSources t = [] then true
  else fwdLoop p t (activeSources t) sourceOrder (preCapAlloc B p t)

/-- Companion predicate to `capLoop`, recomputing the same run: is every
candidate priority sum used as a divisor during cap enforcement strictly
positive? -/
def divLoop (p : Source → ℚ) (t : Source → ℤ) (active : List Source) :
    List Source → (Source → ℤ) → Bool
  | [], _ => true
  | s :: rest, a =>
    if t s < a s then
      let a1 := setVal a s (t s)
      let cands := capCandidates t active s a1
      if cands = [] then divLoop p t active rest a1
      else if 0 < (cands.map p).sum then
        let st := distLoop p ((cands.map p).sum) cands (a1, a s - t s)
        divLoop p t active rest
          (if 0 < st.2 then
            setVal st.1 (argmaxKey p cands) (st.1 (argmaxKey p cands) + st.2)
          else st.1)
      else false
    else divLoop p t active rest a

/-- Every divisor `_allocate_tokens` uses on the given input is strictly
positive: the active priority sum at normalization, and each clip event's
candidate priority sum. -/
def divisorsPositive (B : ℤ) (p : Source → ℚ) (t : Source → ℤ) : Bool :=
  if activeSources t = [] then true
  else if 0 < totalPriority p t then
    divLoop p t (activeSources t) sourceOrder (preCapAlloc B p t)
  else false

/-- Python `str.strip()`: remove leading and trailing whitespace, modelled
over the string's character list so that concrete runs compute. -/
def pyStrip (s : String) : String :=
  ⟨((s.data.dropWhile Char.isWhitespace).reverse.dropWhile Char.isWhitespace).reverse⟩

/-- Split a character list at every occurrence of `sep`, keeping empty
pieces (the behaviour of Python `str.split` with an explicit separator). -/
def splitCharList (sep : Char) : List Char → List (List Char)
  | [] => [[]]
  | c :: rest =>
    match splitCharList sep rest with
    | [] => [[]]
    | piece :: pieces =>
      if c = sep then [] :: piece :: pieces else (c :: piece) :: pieces

/-- Python `str.split(sep)` for the one-character separators the code uses
(`","` and `"\n"`). -/
def pySplit (s : String) (sep : Char) : List String :=
  (splitCharList sep s.data).map (fun cs => ⟨cs⟩)

/-- Parse of a nonempty all-digit character list (helper for the modelled
Python numeric conversions). -/
def parseDigits (cs : List Char) : Option ℕ :=
  if cs = [] then none
  else cs.foldl (fun acc c =>
    acc.bind (fun n => if c.isDigit then some (10 * n + (c.toNat - 48)) else none)) (some 0)

/-- Python `int(str)` on an already-stripped string: optional sign followed by
decimal digits; any other shape raises `ValueError`, modelled as `none`. -/
def parsePyInt (s : String) : Option ℤ :=
  match s.data with
  | '-' :: rest => (parseDigits rest).map (fun n => -(n : ℤ))
  | '+' :: rest => (parseDigits rest).map (fun n => (n : ℤ))
  | cs => (parseDigits cs).map (fun n => (n : ℤ))

/-- The `for part in reply.split(","):` loop body of the relevance filters
(lines 267-270 and 325-328): convert each comma-separated token with `int()`,
keep in-range 0-based indices in reply order, and abort with `none` on the
first conversion error (`ValueError`). -/
def indicesLoop (n : ℕ) : List String → List ℕ → Option (List ℕ)
  | [], acc => some acc
  | part :: rest, acc =>
    match parsePyInt (pyStrip part) with
    | none => none
    | some v =>
      if 0 ≤ v - 1 ∧ v - 1 < (n : ℤ) then indicesLoop n rest (acc ++ [(v - 1).toNat])
      else indicesLoop n rest acc

/-- Lines 262-276 / 320-334: the selected 0-based indices for an input of
length `n` given the stripped model reply.  An exact `"0"` reply selects
nothing; a conversion error anywhere falls back to every index. -/
def relevantIndices (n : ℕ) (reply : String) : List ℕ :=
  let str := pyStrip reply
  if str ≠ "0" then
    match indicesLoop n (pySplit str ',') [] with
    | some acc => acc
    | none => List.range n
  else []

/-- `_filter_relevant_sections` (lines 221-276), with the language-model reply
as an input: the empty-input guard returns `[]` before the call would be made,
otherwise the reply's selected indices pick the returned sections. -/
def filter_relevant_sections (sections : List String) (reply : String) : List String :=
  if sections = [] then []
  else (relevantIndices sections.length reply).filterMap (fun i => sections[i]?)

/-- `_filter_relevant_chunks` (lines 278-334), with the reply as an input:
identical parse and fallback logic over chunk records (only record identity
matters here, so the element type is generic); at most five chunks skip the
filtering call and are returned unchanged. -/
def filter_relevant_chunks {α : Type} (chunks : List α) (reply : String) : List α :=
  if chunks.length ≤ 5 then chunks
  else (relevantIndices chunks.length reply).filterMap (fun i => chunks[i]?)

/-- A recalled passage as `_rerank_results` consumes it: only the fields the
reranker reads (`similarity_score`, and `text` for the prompt). -/
structure Passage where
  text : String
  similarity_score : ℚ
deriving DecidableEq, Repr

/-- A passage record after `_rerank_results` assigned `rerank_score` and
`combined_score`. -/
structure ScoredPassage where
  base : Passage
  rerank_score : ℚ
  combined_score : ℚ
deriving DecidableEq, Repr

/-- The integer/fraction shapes of Python `float(str)`: digits, `digits.`,
`.digits`, `digits.digits` (exponent and non-finite forms are out of the
rubric's score shape and parse as `none`, treated like any unparseable line). -/
def parsePyFloatCore (cs : List Char) : Option ℚ :=
  match splitCharList '.' cs with
  | [intPart] => (parseDigits intPart).map (fun n => (n : ℚ))
  | [intPart, fracPart] =>
    if intPart = [] then
      (parseDigits fracPart).map (fun f => (f : ℚ) / 10 ^ fracPart.length)
    else if fracPart = [] then
      (parseDigits intPart).map (fun n => (n : ℚ))
    else
      match parseDigits intPart, parseDigits fracPart with
      | some n, some f => some ((n : ℚ) + (f : ℚ) / 10 ^ fracPart.length)
      | _, _ => none
  | _ => none

/-- Python `float(str)` on an already-stripped string, modelled over ℚ. -/
def parsePyFloat (s : String) : Option ℚ :=
  match s.data with
  | '-' :: rest => (parsePyFloatCore rest).map (fun q => -q)
  | '+' :: rest => parsePyFloatCore rest
  | cs => parsePyFloatCore cs

/-- `_rerank_results` (hierarchical_indexer.py, lines 633-707), with the model
reply as an input.  Scores are the reply lines that parse as numbers, in
order, right-padded with `0` up to the passage count (extra lines are simply
never indexed); each record gets
`combined_score = 0.3 * similarity_score + 0.7 * (rerank_score / 10)` and the
records are sorted by `combined_score` descending (Python `sorted` is a stable
merge sort).  An empty input returns `[]` before any call.
`padScores` is the right-padding of lines 689-692. -/
def padScores (scores : List ℚ) (n : ℕ) : List ℚ :=
  if scores.length < n then scores ++ List.replicate (n - scores.length) 0 else scores

/-- Lines 694-702: assign one enumerated record its `rerank_score` and
`combined_score` (the `else` arm is the code's guard for a missing score, made
unreachable by the padding). -/
def scoreRecord (scores : List ℚ) (ir : ℕ × Passage) : ScoredPassage :=
  match scores[ir.1]? with
  | some sc => ⟨ir.2, sc, 0.3 * ir.2.similarity_score + 0.7 * (sc / 10)⟩
  | none => ⟨ir.2, 0, 0.3 * ir.2.similarity_score⟩

def rerank_results (initial_results : List Passage) (reply : String) :
    List ScoredPassage :=
  if initial_results = [] then []
  else
    let scores0 := (pySplit (pyStrip reply) '\n').filterMap
      (fun line => parsePyFloat (pyStrip line))
    (initial_results.enum.map
      (scoreRecord (padScores scores0 initial_results.length))).mergeSort
      (fun x y => decide (y.combined_score ≤ x.combined_score))

/-- `_select_relevant_sources` (lines 149-191): the fixed selection matrix,
with `selection_matrix.get(objective, selection_matrix["informative"])` as the
unknown-objective fallback. -/
def select_relevant_sources (objective : String) : Source → Bool :=
  if objective = "informative" then fun s =>
    match s with
    | .chunks => true
    | .product_guidelines => true
    | .design_guidelines => false
    | .benchmarks => false
    | .team_objectives => false
  else if objective = "hypothesis" then fun s =>
    match s with
    | .chunks => true
    | .product_guidelines => true
    | .design_guidelines => true
    | .benchmarks => true
    | .team_objectives => false
  else if objective = "benchmark" then fun s =>
    match s with
    | .chunks => true
    | .product_guidelines => true
    | .design_guidelines => true
    | .benchmarks => true
    | .team_objectives => false
  else if objective = "objectives" then fun s =>
    match s with
    | .chunks => true
    | .product_guidelines => true
    | .design_guidelines => false
    | .benchmarks => false
    | .team_objectives => true
  else fun s =>
    match s with
    | .chunks => true
    | .product_guidelines => true
    | .design_guidelines => false
    | .benchmarks => false
    | .team_objectives => false

/-- The source-selection table exactly as the C9 claim text (spec §4.2) states
it, written independently of `select_relevant_sources` for comparison:
`hypothesis`/`benchmark` enable everything but team objectives, `objectives`
enables chunks, product guidelines and team objectives, and every other
string — `informative` included — yields the informative row. -/
def specSelectionTable (objective : String) (s : Source) : Bool :=
  if objective = "hypothesis" ∨ objective = "benchmark" then
    match s with
    | .team_objectives => false
    | _ => true
  else if objective = "objectives" then
    match s with
    | .chunks => true
    | .product_guidelines => true
    | .team_objectives => true
    | _ => false
  else
    match s with
    | .chunks => true
    | .product_guidelines => true
    | _ => false

/-- `_count_tokens` (lines 633-649): `len(text) // 4` with the empty-text
guard (Python `len` counts code points, as `String.length` does). -/
def count_tokens (text : String) : ℕ :=
  if text = "" then 0 else text.length / 4

/-- The `"\n\n".join(...)` of `_compress_context`; joining no items and the
falsy-list guard both yield `""`. -/
def joinBlocks (items : List String) : String :=
  String.intercalate "\n\n" items

/-- The result dict of `_compress_context`. -/
structure CompressedContext where
  chunks : String
  product_guidelines : String
  design_guidelines : String
  benchmarks : String
  team_objectives : String
  total_tokens : ℕ
deriving DecidableEq, Repr

/-- `_compress_component` (lines 586-631), with the summarization call
abstracted as `oracle query text component_name max_tokens` (reply stripped);
text already within the limit is returned unchanged without a call. -/
def compress_component (oracle : String → String → String → ℤ → String)
    (query text component_name : String) (max_tokens : ℤ) : String :=
  if (count_tokens text : ℤ) ≤ max_tokens then text
  else pyStrip (oracle query text component_name max_tokens)

/-- The initial per-source token estimates of `_compress_context`
(lines 372-378), from the joined text of each source. -/
def initialTokens (chunk_texts product_g design_g benchmark_items team_obj : List String) :
    Source → ℕ :=
  fun s =>
    match s with
    | .chunks => count_tokens (joinBlocks chunk_texts)
    | .product_guidelines => count_tokens (joinBlocks product_g)
    | .design_guidelines => count_tokens (joinBlocks design_g)
    | .benchmarks => count_tokens (joinBlocks benchmark_items)
    | .team_objectives => count_tokens (joinBlocks team_obj)

/-- `_compress_context` (lines 336-470), with chunk records reduced to their
text and the summarization model abstracted as `oracle`.  Within budget the
five joined blocks are returned unchanged and `total_tokens` is the sum of the
initial estimates, with no oracle call and no allocation; over budget the
token allocation runs (propagating its possible `ZeroDivisionError` as
`none`) and each nonempty block with a positive allocation is compressed,
`total_tokens` being re-estimated from the compressed blocks. -/
def compress_context (oracle : String → String → String → ℤ → String)
    (query : String) (chunk_texts product_g design_g benchmark_items team_obj : List String)
    (objective : String) (max_total_tokens : ℤ) : Option CompressedContext :=
  let priorities := get_priorities_by_objective objective
  let initial := initialTokens chunk_texts product_g design_g benchmark_items team_obj
  let total_initial := (sourceOrder.map initial).sum
  if (total_initial : ℤ) ≤ max_total_tokens then
    some ⟨joinBlocks chunk_texts, joinBlocks product_g, joinBlocks design_g,
      joinBlocks benchmark_items, joinBlocks team_obj, total_initial⟩
  else
    (allocate_tokens max_total_tokens priorities (fun s => (initial s : ℤ))).map
      (fun alloc =>
        let cc := if joinBlocks chunk_texts ≠ "" ∧ 0 < alloc Source.chunks then
            compress_component oracle query (joinBlocks chunk_texts)
              "chunks recuperados" (alloc Source.chunks)
          else ""
        let cp := if joinBlocks product_g ≠ "" ∧ 0 < alloc Source.product_guidelines then
            compress_component oracle query (joinBlocks product_g)
              "diretrizes de produto" (alloc Source.product_guidelines)
          else ""
        let cd := if joinBlocks design_g ≠ "" ∧ 0 < alloc Source.design_guidelines then
            compress_component oracle query (joinBlocks design_g)
              "diretrizes de design" (alloc Source.design_guidelines)
          else ""
        let cb := if joinBlocks benchmark_items ≠ "" ∧ 0 < alloc Source.benchmarks then
            compress_component oracle query (joinBlocks benchmark_items)
              "benchmarks" (alloc Source.benchmarks)
          else ""
        let co := if joinBlocks team_obj ≠ "" ∧ 0 < alloc Source.team_objectives then
            compress_component oracle query (joinBlocks team_obj)
              "objetivos do time" (alloc Source.team_objectives)
          else ""
        ⟨cc, cp, cd, cb, co,
          count_tokens cc + count_tokens cp + count_tokens cd + count_tokens cb +
            count_tokens co⟩)

/-- Equal positive weights on the two content-bearing sources (concrete
allocator input). -/
def pHalf : Source → ℚ := fun s =>
  match s with
  | .chunks => 0.5
  | .product_guidelines => 0.5
  | _ => 0

/-- Concrete content: 60 tokens of chunks, 10 of product guidelines. -/
def tHalf : Source → ℤ := fun s =>
  match s with
  | .chunks => 60
  | .product_guidelines => 10
  | _ => 0

/-- The spec's scenario content: 8000 tokens of chunks, 500 of product
guidelines. -/
def tScenario : Source → ℤ := fun s =>
  match s with
  | .chunks => 8000
  | .product_guidelines => 500
  | _ => 0

/-- The spec scenario's content swapped between the two sources. -/
def tScenarioSwapped : Source → ℤ := fun s =>
  match s with
  | .chunks => 500
  | .product_guidelines => 8000
  | _ => 0

/-- Strictly positive weight on every source (concrete allocator input). -/
def pFifth : Source → ℚ := fun _ => 0.2

/-- No content anywhere. -/
def tZero : Source → ℤ := fun _ => 0

/-- Zero weight on every source. -/
def pAllZero : Source → ℚ := fun _ => 0

/-- Content on every source. -/
def tAllContent : Source → ℤ := fun _ => 100

/-- All weight on chunks, none elsewhere. -/
def pChunksOnly : Source → ℚ := fun s =>
  match s with
  | .chunks => 1
  | _ => 0

/-- Content making chunks overflow with product guidelines as the only
(zero-weight) redistribution candidate. -/
def tSmallChunks : Source → ℤ := fun s =>
  match s with
  | .chunks => 10
  | .product_guidelines => 50
  | _ => 0

/-- The spec scenario's content plus 300 tokens of (zero-weight) design
guidelines. -/
def tWithZeroWeightContent : Source → ℤ := fun s =>
  match s with
  | .chunks => 8000
  | .product_guidelines => 500
  | .design_guidelines => 300
  | _ => 0

/-- Every source occurs in the fixed iteration order. -/
lemma mem_sourceOrder (s : Source) : s ∈ sourceOrder := by
  cases s <;> simp [sourceOrder]

lemma setVal_same (a : Source → ℤ) (s : Source) (v : ℤ) : setVal a s v s = v := by
  simp [setVal]

lemma setVal_other (a : Source → ℤ) (s : Source) (v : ℤ) {x : Source} (hx : x ≠ s) :
    setVal a s v x = a x := by
  simp [setVal, hx]

lemma pyInt_zero : pyInt 0 = 0 := by
  simp [pyInt]

lemma argmaxKey_go_mem (f : Source → ℚ) :
    ∀ (xs : List Source) (b : Source),
      xs.foldl (fun best c => if f best < f c then c else best) b ∈ b :: xs := by
  intro xs
  induction xs with
  | nil => intro b; simp
  | cons x xs ih =>
    intro b
    have h := ih (if f b < f x then x else b)
    rcases List.mem_cons.mp h with h1 | h1
    · by_cases hc : f b < f x
      · simp only [List.foldl_cons, hc, if_true] at h1 ⊢
        simp [h1]
      · simp only [List.foldl_cons, hc, if_false] at h1 ⊢
        simp [h1]
    · simp only [List.foldl_cons]
      exact List.mem_cons_of_mem _ (List.mem_cons_of_mem _ h1)

lemma argmaxKey_mem (f : Source → ℚ) {l : List Source} (hl : l ≠ []) :
    argmaxKey f l ∈ l := by
  cases l with
  | nil => exact absurd rfl hl
  | cons x xs => exact argmaxKey_go_mem f xs x

lemma argmaxKey_go_le (f : Source → ℚ) :
    ∀ (xs : List Source) (b : Source),
      f b ≤ f (xs.foldl (fun best c => if f best < f c then c else best) b) ∧
      ∀ c ∈ xs, f c ≤ f (xs.foldl (fun best c => if f best < f c then c else best) b) := by
  intro xs
  induction xs with
  | nil => intro b; simp
  | cons x xs ih =>
    intro b
    obtain ⟨ih1, ih2⟩ := ih (if f b < f x then x else b)
    have hb : f b ≤ f (if f b < f x then x else b) := by
      by_cases hc : f b < f x <;> simp [hc, le_of_lt]
    have hx : f x ≤ f (if f b < f x then x else b) := by
      by_cases hc : f b < f x <;> simp [hc]
      exact le_of_not_lt hc
    refine ⟨le_trans hb ?_, ?_⟩
    · simpa using ih1
    · intro c hc
      rcases List.mem_cons.mp hc with h1 | h1
      · subst h1
        simpa using le_trans hx ih1
      · simpa using ih2 c h1

lemma le_argmaxKey (f : Source → ℚ) {l : List Source} {c : Source} (hc : c ∈ l) :
    f c ≤ f (argmaxKey f l) := by
  cases l with
  | nil => simp at hc
  | cons x xs =>
    rcases List.mem_cons.mp hc with h1 | h1
    · subst h1; exact (argmaxKey_go_le f xs c).1
    · exact (argmaxKey_go_le f xs x).2 c h1

/-- A list of non-negative rationals with a nonzero sum has a positive
element. -/
lemma exists_pos_of_sum_ne_zero {l : List Source} {f : Source → ℚ}
    (hnn : ∀ c ∈ l, 0 ≤ f c) (hs : (l.map f).sum ≠ 0) :
    ∃ c ∈ l, 0 < f c := by
  by_contra h
  push_neg at h
  exact hs (List.sum_eq_zero (by
    intro x hx
    obtain ⟨c, hc, rfl⟩ := List.mem_map.mp hx
    exact le_antisymm (h c hc) (hnn c hc)))

/-- Updating one source shifts the total by the difference. -/
lemma sumAlloc_setVal (a : Source → ℤ) (s : Source) (v : ℤ) :
    sumAlloc (setVal a s v) = sumAlloc a + v - a s := by
  cases s <;> simp [sumAlloc, sourceOrder, setVal] <;> ring

/-- A source already within its cap is left alone by its enforcement step. -/
lemma capStep_of_le {p : Source → ℚ} {t : Source → ℤ} {active : List Source}
    {a : Source → ℤ} (h : ∀ s, a s ≤ t s) (s : Source) :
    capStep p t active s a = some a := by
  simp [capStep, not_lt.mpr (h s)]

/-- If every source is within its cap, the whole enforcement pass is the
identity. -/
lemma capLoop_of_le {p : Source → ℚ} {t : Source → ℤ} {active : List Source}
    {a : Source → ℤ} (h : ∀ s, a s ≤ t s) :
    ∀ l, capLoop p t active l a = some a := by
  intro l
  induction l with
  | nil => rfl
  | cons s rest ih => simp [capLoop, capStep_of_le h, ih]

/-- After the rounding fix-up the allocation totals exactly the budget. -/
lemma sumAlloc_preCapAlloc {B : ℤ} {p : Source → ℚ} {t : Source → ℤ}
    (h : activeSources t ≠ []) :
    sumAlloc (preCapAlloc B p t) = B := by
  simp only [preCapAlloc, if_neg h]
  split_ifs with hadj
  · omega
  · rw [sumAlloc_setVal]; omega

/-- C2 counterexample: with strictly positive weights on every source, no
content anywhere and budget 6000, no source is cap-constrained after the
proportional pass and fix-up (the allocator returns all zeros), yet the
returned allocations sum to 0, not to the budget. -/
theorem allocate_tokens_sum_budget_cex :
    (∀ s, 0 < pFifth s) ∧
    (∀ s, preCapAlloc 6000 pFifth tZero s ≤ tZero s) ∧
    (allocate_tokens 6000 pFifth tZero).map sumAlloc = some 0 ∧
    ((0 : ℤ) ≠ 6000) := by
  refine ⟨fun s => by norm_num [pFifth], fun s => ?_, ?_, by norm_num⟩
  · norm_num +decide [preCapAlloc, activeSources, sourceOrder, tZero]
  · norm_num +decide [allocate_tokens, activeSources, sourceOrder, tZero, sumAlloc]

/-- C2 amended: when every source's weight is strictly positive, no source is
cap-constrained after the proportional floor pass and rounding fix-up, and —
additionally to the claim — at least one source has positive initial tokens,
`_allocate_tokens` returns and its allocations sum exactly to the budget. -/
theorem allocate_tokens_sum_eq_budget (B : ℤ) (p : Source → ℚ) (t : Source → ℤ)
    (hp : ∀ s, 0 < p s) (hact : ∃ s, 0 < t s)
    (hcap : ∀ s, preCapAlloc B p t s ≤ t s) :
    ∃ a, allocate_tokens B p t = some a ∧ sumAlloc a = B := by
  obtain ⟨s0, hs0⟩ := hact
  have hmem : s0 ∈ activeSources t := by
    simp [activeSources, mem_sourceOrder, hs0]
  have hne : activeSources t ≠ [] := List.ne_nil_of_mem hmem
  have htot : totalPriority p t ≠ 0 := by
    refine ne_of_gt (List.sum_pos _ ?_ ?_)
    · intro x hx
      obtain ⟨c, _, rfl⟩ := List.mem_map.mp hx
      exact hp c
    · intro hmap
      exact hne (by simpa using hmap)
  refine ⟨preCapAlloc B p t, ?_, sumAlloc_preCapAlloc hne⟩
  unfold allocate_tokens
  rw [if_neg hne, if_neg htot]
  exact capLoop_of_le hcap _

/-- Witness for the amended C2 on a concrete uncapped input: budget 100,
weight 0.2 and content 100 everywhere. -/
theorem allocate_tokens_sum_eq_budget_witness :
    ∃ a, allocate_tokens 100 pFifth tAllContent = some a ∧ sumAlloc a = 100 :=
  allocate_tokens_sum_eq_budget 100 pFifth tAllContent
    (fun s => by norm_num [pFifth])
    ⟨Source.chunks, by norm_num [tAllContent]⟩
    (fun s => by
      cases s <;>
        norm_num +decide [preCapAlloc, firstPass, totalPriority, activeSources,
          sourceOrder, pFifth, tAllContent, sumAlloc, pyInt, argmaxKey, setVal])

/-- C3: on budget 6000, informative priorities (chunks 0.85, product 0.15) and
content (chunks 8000, product 500), the first pass gives 5100/900, the rounding
adjustment is zero (the fix-up changes nothing), product is clipped to 500 and
its excess 400 goes entirely to chunks: the result is
`{chunks: 5500, product_guidelines: 500}`, all others 0, summing to 6000. -/
theorem allocate_tokens_scenario_informative :
    firstPass 6000 (get_priorities_by_objective "informative") tScenario Source.chunks
        = 5100 ∧
    firstPass 6000 (get_priorities_by_objective "informative") tScenario
        Source.product_guidelines = 900 ∧
    (∀ s, preCapAlloc 6000 (get_priorities_by_objective "informative") tScenario s
        = firstPass 6000 (get_priorities_by_objective "informative") tScenario s) ∧
    (allocate_tokens 6000 (get_priorities_by_objective "informative") tScenario).map
        viewAlloc = some (5500, 500, 0, 0, 0) ∧
    (allocate_tokens 6000 (get_priorities_by_objective "informative") tScenario).map
        sumAlloc = some 6000 := by
  refine ⟨?_, ?_, fun s => ?_, ?_, ?_⟩
  · norm_num +decide [firstPass, totalPriority, activeSources, sourceOrder, pyInt,
      get_priorities_by_objective, tScenario]
  · norm_num +decide [firstPass, totalPriority, activeSources, sourceOrder, pyInt,
      get_priorities_by_objective, tScenario]
  · cases s <;>
      norm_num +decide [preCapAlloc, firstPass, totalPriority, activeSources, sourceOrder,
        pyInt, get_priorities_by_objective, tScenario, sumAlloc, argmaxKey, setVal]
  · norm_num +decide [allocate_tokens, capLoop, capStep, distLoop, preCapAlloc, firstPass,
      totalPriority, activeSources, sourceOrder, capCandidates, argmaxKey, setVal, pyInt,
      sumAlloc, viewAlloc, get_priorities_by_objective, tScenario]
  · norm_num +decide [allocate_tokens, capLoop, capStep, distLoop, preCapAlloc, firstPass,
      totalPriority, activeSources, sourceOrder, capCandidates, argmaxKey, setVal, pyInt,
      sumAlloc, get_priorities_by_objective, tScenario]

/-- C1 counterexample: budget 100, weights 0.5/0.5 on chunks/product, content
60/10.  Product guidelines is the only cap-constrained source after the
proportional pass (50/50), yet its redistributed excess pushes the
already-checked chunks source to 90, above its 60 tokens of content. -/
theorem allocate_tokens_cap_violation :
    (allocate_tokens 100 pHalf tHalf).map viewAlloc = some (90, 10, 0, 0, 0) ∧
    (∀ s, firstPass 100 pHalf tHalf s ≤ tHalf s ∨ s = Source.product_guidelines) ∧
    tHalf Source.chunks = 60 ∧ ¬ ((90 : ℤ) ≤ 60) := by
  refine ⟨?_, fun s => ?_, by norm_num [tHalf], by norm_num⟩
  · norm_num +decide [allocate_tokens, capLoop, capStep, distLoop, preCapAlloc, firstPass,
      totalPriority, activeSources, sourceOrder, capCandidates, argmaxKey, setVal, pyInt,
      sumAlloc, viewAlloc, pHalf, tHalf]
  · cases s <;>
      norm_num +decide [firstPass, totalPriority, activeSources, sourceOrder, pyInt,
        pHalf, tHalf]

/-- Sources not named by the inner redistribution loop keep their value. -/
lemma distLoop_untouched (p : Source → ℚ) (tc : ℚ) :
    ∀ (l : List Source) (st : (Source → ℤ) × ℤ) (x : Source), x ∉ l →
      (distLoop p tc l st).1 x = st.1 x := by
  intro l
  induction l with
  | nil => intro st x _; rfl
  | cons c rest ih =>
    intro st x hx
    match st with
    | (a, e) =>
      rw [distLoop, ih _ x (fun h => hx (List.mem_cons_of_mem _ h))]
      exact setVal_other _ _ _ (fun h => hx (h ▸ List.mem_cons_self _ _))

/-- A clipped source is never its own redistribution candidate. -/
lemma not_mem_capCandidates_self (t : Source → ℤ) (active : List Source) (s : Source)
    (a : Source → ℤ) : s ∉ capCandidates t active s a := by
  simp [capCandidates]

/-- A successful enforcement step leaves the stepped source within its cap,
and changes no other source outside that step's candidate set. -/
lemma capStep_props {p : Source → ℚ} {t : Source → ℤ} {active : List Source}
    {s : Source} {a b : Source → ℤ} (h : capStep p t active s a = some b) :
    b s ≤ t s ∧
    ∀ x, x ≠ s → (t s < a s → x ∉ capCandidates t active s (setVal a s (t s))) →
      b x = a x := by
  simp only [capStep] at h
  by_cases h1 : t s < a s
  · rw [if_pos h1] at h
    set a1 := setVal a s (t s) with ha1
    set cands := capCandidates t active s a1 with hcands
    set tc := (List.map p cands).sum with htc
    have hs : s ∉ cands := not_mem_capCandidates_self t active s a1
    have ha1s : a1 s = t s := setVal_same a s (t s)
    have ha1o : ∀ x, x ≠ s → a1 x = a x := fun x hx => setVal_other a s (t s) hx
    by_cases h2 : cands = []
    · rw [if_pos h2] at h
      obtain rfl : a1 = b := Option.some.inj h
      exact ⟨le_of_eq ha1s, fun x hx _ => ha1o x hx⟩
    · rw [if_neg h2] at h
      have hm : argmaxKey p cands ∈ cands := argmaxKey_mem p h2
      have hsm : s ≠ argmaxKey p cands := fun he => hs (he ▸ hm)
      have hst1 : ∀ x, x ∉ cands → (distLoop p tc cands (a1, a s - t s)).1 x = a1 x :=
        fun x hx => distLoop_untouched p tc cands (a1, a s - t s) x hx
      by_cases h3 : tc = 0
      · rw [if_pos h3] at h
        exact absurd h (by simp)
      · rw [if_neg h3] at h
        by_cases h4 : 0 < (distLoop p tc cands (a1, a s - t s)).2
        · rw [if_pos h4] at h
          obtain rfl := Option.some.inj h
          refine ⟨?_, ?_⟩
          · rw [setVal_other _ _ _ hsm, hst1 s hs, ha1s]
          · intro x hx hxc
            have hxm : x ≠ argmaxKey p cands := fun he => (hxc h1) (he ▸ hm)
            rw [setVal_other _ _ _ hxm, hst1 x (hxc h1), ha1o x hx]
        · rw [if_neg h4] at h
          obtain rfl := Option.some.inj h
          exact ⟨by rw [hst1 s hs, ha1s], fun x hx hxc => by
            rw [hst1 x (hxc h1), ha1o x hx]⟩
  · rw [if_neg h1] at h
    obtain rfl : a = b := Option.some.inj h
    exact ⟨le_of_not_lt h1, fun _ _ _ => rfl⟩

/-- Under forward-only redistribution, the enforcement pass ends with every
source it has processed within its cap. -/
lemma capLoop_fwd_le {p : Source → ℚ} {t : Source → ℤ} {active : List Source} :
    ∀ (l : List Source) (a b : Source → ℤ),
      capLoop p t active l a = some b → fwdLoop p t active l a = true →
      (∀ x, x ∉ l → a x ≤ t x) → ∀ x, b x ≤ t x := by
  intro l
  induction l with
  | nil =>
    intro a b hb _ hall x
    rw [capLoop] at hb
    exact (Option.some.inj hb) ▸ hall x (List.not_mem_nil x)
  | cons s rest ih =>
    intro a b hb hf
    rcases hstep : capStep p t active s a with _ | a2
    · rw [capLoop, hstep] at hb
      exact absurd hb (by simp)
    · rw [capLoop, hstep] at hb
      simp only [Option.some_bind] at hb
      rw [fwdLoop, hstep] at hf
      obtain ⟨hcond, hrest⟩ := Bool.and_eq_true _ _ ▸ hf
      intro hall
      have hnc : ∀ y, t s < a s → y ∉ rest →
          y ∉ capCandidates t active s (setVal a s (t s)) := by
        intro y h1 hyr hyc
        rw [if_pos h1] at hcond
        exact hyr (of_decide_eq_true (List.all_eq_true.mp hcond _ hyc))
      refine ih a2 b hb hrest (fun y hy => ?_)
      by_cases hys : y = s
      · subst hys; exact (capStep_props hstep).1
      · rw [(capStep_props hstep).2 y hys (fun h1 => hnc y h1 hy)]
        exact hall y (by
          intro hmem
          rcases List.mem_cons.mp hmem with h | h
          · exact hys h
          · exact hy h)

/-- C1 amended: for non-negative content, whenever `_allocate_tokens` returns
and every clip event of its cap-enforcement pass redistributes excess only to
sources whose own cap check has not yet run (all candidates strictly later in
the fixed source order), the returned allocation satisfies `a[s] ≤ t[s]` for
every source.  (Redistribution into an already-checked source can exceed that
source's content — see the counterexample.) -/
theorem allocate_tokens_caps_of_forward_redistribution (B : ℤ) (p : Source → ℚ)
    (t : Source → ℤ) (a : Source → ℤ)
    (ht : ∀ s, 0 ≤ t s)
    (h : allocate_tokens B p t = some a)
    (hfwd : forwardRedistOnly B p t = true) :
    ∀ s, a s ≤ t s := by
  unfold allocate_tokens at h
  by_cases hact : activeSources t = []
  · rw [if_pos hact] at h
    obtain rfl := Option.some.inj h
    exact fun s => ht s
  · rw [if_neg hact] at h
    by_cases htot : totalPriority p t = 0
    · rw [if_pos htot] at h
      exact absurd h (by simp)
    · rw [if_neg htot] at h
      have hf : fwdLoop p t (activeSources t) sourceOrder (preCapAlloc B p t) = true := by
        unfold forwardRedistOnly at hfwd
        rwa [if_neg hact] at hfwd
      exact capLoop_fwd_le sourceOrder _ a h hf
        (fun x hx => absurd (mem_sourceOrder x) hx)

/-- Witness for the amended C1: the spec scenario with the content swapped
(chunks 500, product 8000).  Chunks is clipped first and its excess flows
forward to product guidelines only, so every source ends within its cap. -/
theorem allocate_tokens_caps_forward_witness :
    ∃ a, allocate_tokens 6000 (get_priorities_by_objective "informative")
        tScenarioSwapped = some a ∧ ∀ s, a s ≤ tScenarioSwapped s := by
  have hv : (allocate_tokens 6000 (get_priorities_by_objective "informative")
      tScenarioSwapped).map viewAlloc = some (500, 5500, 0, 0, 0) := by
    norm_num +decide [allocate_tokens, capLoop, capStep, distLoop, preCapAlloc, firstPass,
      totalPriority, activeSources, sourceOrder, capCandidates, argmaxKey, setVal, pyInt,
      sumAlloc, viewAlloc, get_priorities_by_objective, tScenarioSwapped]
  cases heq : allocate_tokens 6000 (get_priorities_by_objective "informative")
      tScenarioSwapped with
  | none => rw [heq] at hv; exact absurd hv (by simp)
  | some a =>
    refine ⟨a, rfl, allocate_tokens_caps_of_forward_redistribution _ _ _ a ?_ heq ?_⟩
    · intro s; cases s <;> norm_num [tScenarioSwapped]
    · norm_num +decide [forwardRedistOnly, fwdLoop, capStep, distLoop, preCapAlloc,
        firstPass, totalPriority, activeSources, sourceOrder, capCandidates, argmaxKey,
        setVal, pyInt, sumAlloc, get_priorities_by_objective, tScenarioSwapped]

/-- The redistribution loop keeps zero-weight sources at 0: a zero-weight
candidate's proportional share is the floor of 0. -/
lemma distLoop_zero_weight {p : Source → ℚ} {tc : ℚ} :
    ∀ (l : List Source) (st : (Source → ℤ) × ℤ),
      (∀ x, p x = 0 → st.1 x = 0) → ∀ x, p x = 0 → (distLoop p tc l st).1 x = 0 := by
  intro l
  induction l with
  | nil => intro st h x hx; exact h x hx
  | cons c rest ih =>
    intro st h x hx
    match st with
    | (a, e) =>
      rw [distLoop]
      refine ih _ ?_ x hx
      have h2 : ∀ z, p z = 0 → a z = 0 := h
      intro y hy
      dsimp only
      by_cases hyc : y = c
      · rw [hyc, setVal_same, h2 c (hyc ▸ hy)]
        rw [hyc] at hy
        rw [hy]
        norm_num [pyInt]
      · rw [setVal_other _ _ _ hyc]
        exact h2 y hy

/-- One enforcement step keeps zero-weight sources at 0 (for non-negative
weights and content): a zero-weight source is never over its cap, receives a
zero share, and is never the largest-priority remainder target. -/
lemma capStep_zero_weight {p : Source → ℚ} {t : Source → ℤ} {active : List Source}
    {s : Source} {a b : Source → ℤ}
    (hp : ∀ x, 0 ≤ p x) (ht : ∀ x, 0 ≤ t x)
    (h : capStep p t active s a = some b)
    (hz : ∀ x, p x = 0 → a x = 0) :
    ∀ x, p x = 0 → b x = 0 := by
  simp only [capStep] at h
  by_cases h1 : t s < a s
  · rw [if_pos h1] at h
    set a1 := setVal a s (t s) with ha1
    set cands := capCandidates t active s a1 with hcands
    set tc := (List.map p cands).sum with htc
    have ha1z : ∀ x, p x = 0 → a1 x = 0 := by
      intro x hx
      by_cases hxs : x = s
      · rw [hxs] at hx ⊢
        exact absurd h1 (by rw [hz s hx]; exact not_lt.mpr (ht s))
      · exact (setVal_other a s (t s) hxs).trans (hz x hx)
    by_cases h2 : cands = []
    · rw [if_pos h2] at h
      obtain rfl := Option.some.inj h
      exact ha1z
    · rw [if_neg h2] at h
      by_cases h3 : tc = 0
      · rw [if_pos h3] at h
        exact absurd h (by simp)
      · rw [if_neg h3] at h
        obtain ⟨c0, hc0, hc0pos⟩ :=
          exists_pos_of_sum_ne_zero (fun c _ => hp c) h3
        have hargpos : 0 < p (argmaxKey p cands) :=
          lt_of_lt_of_le hc0pos (le_argmaxKey p hc0)
        have hdz : ∀ x, p x = 0 → (distLoop p tc cands (a1, a s - t s)).1 x = 0 :=
          distLoop_zero_weight cands _ ha1z
        by_cases h4 : 0 < (distLoop p tc cands (a1, a s - t s)).2
        · rw [if_pos h4] at h
          obtain rfl := Option.some.inj h
          intro x hx
          have hxm : x ≠ argmaxKey p cands := by
            intro he
            rw [he] at hx
            exact (ne_of_gt hargpos) hx
          rw [setVal_other _ _ _ hxm]
          exact hdz x hx
        · rw [if_neg h4] at h
          obtain rfl := Option.some.inj h
          exact hdz
  · rw [if_neg h1] at h
    obtain rfl := Option.some.inj h
    exact hz

/-- The whole enforcement pass keeps zero-weight sources at 0. -/
lemma capLoop_zero_weight {p : Source → ℚ} {t : Source → ℤ} {active : List Source}
    (hp : ∀ x, 0 ≤ p x) (ht : ∀ x, 0 ≤ t x) :
    ∀ (l : List Source) (a b : Source → ℤ),
      capLoop p t active l a = some b → (∀ x, p x = 0 → a x = 0) →
      ∀ x, p x = 0 → b x = 0 := by
  intro l
  induction l with
  | nil =>
    intro a b hb hz
    rw [capLoop] at hb
    exact (Option.some.inj hb) ▸ hz
  | cons s rest ih =>
    intro a b hb hz
    rcases hstep : capStep p t active s a with _ | a2
    · rw [capLoop, hstep] at hb
      exact absurd hb (by simp)
    · rw [capLoop, hstep] at hb
      simp only [Option.some_bind] at hb
      exact ih a2 b hb (capStep_zero_weight hp ht hstep hz)

/-- First pass and fix-up give zero-weight sources 0: the proportional floor of
a zero weight is 0, and the adjustment target has positive weight. -/
lemma preCapAlloc_zero_weight {B : ℤ} {p : Source → ℚ} {t : Source → ℤ}
    (hp : ∀ x, 0 ≤ p x) (htot : totalPriority p t ≠ 0) :
    ∀ x, p x = 0 → preCapAlloc B p t x = 0 := by
  intro x hx
  have h0 : firstPass B p t x = 0 := by
    unfold firstPass
    by_cases hxa : 0 < t x
    · rw [if_pos hxa, hx]
      norm_num [pyInt]
    · rw [if_neg hxa]
  by_cases hact : activeSources t = []
  · simp only [preCapAlloc, if_pos hact]
  · have hargpos : 0 < p (argmaxKey p (activeSources t)) := by
      obtain ⟨c0, hc0, hc0pos⟩ := exists_pos_of_sum_ne_zero (fun c _ => hp c) htot
      exact lt_of_lt_of_le hc0pos (le_argmaxKey p hc0)
    simp only [preCapAlloc, if_neg hact]
    split_ifs with hadj
    · exact h0
    · have hxm : x ≠ argmaxKey p (activeSources t) := by
        intro he
        rw [he] at hx
        exact (ne_of_gt hargpos) hx
      rw [setVal_other _ _ _ hxm]
      exact h0

/-- C5: whenever `_allocate_tokens` returns (weights and content are
non-negative, as the priority matrices and token estimates guarantee), every
source with priority weight 0 is allocated 0 tokens, regardless of its
content. -/
theorem allocate_tokens_zero_weight_zero (B : ℤ) (p : Source → ℚ) (t : Source → ℤ)
    (a : Source → ℤ) (hp : ∀ s, 0 ≤ p s) (ht : ∀ s, 0 ≤ t s)
    (h : allocate_tokens B p t = some a) :
    ∀ s, p s = 0 → a s = 0 := by
  unfold allocate_tokens at h
  by_cases hact : activeSources t = []
  · rw [if_pos hact] at h
    obtain rfl := Option.some.inj h
    exact fun s _ => rfl
  · rw [if_neg hact] at h
    by_cases htot : totalPriority p t = 0
    · rw [if_pos htot] at h
      exact absurd h (by simp)
    · rw [if_neg htot] at h
      exact capLoop_zero_weight hp ht sourceOrder _ a h
        (preCapAlloc_zero_weight hp htot)

/-- Witness for C5: the spec scenario plus 300 tokens of zero-weight design
guidelines content; design guidelines still ends at 0 although the product
clip redistributes 400 tokens of excess while design has headroom. -/
theorem allocate_tokens_zero_weight_zero_witness :
    ∃ a, allocate_tokens 6000 (get_priorities_by_objective "informative")
        tWithZeroWeightContent = some a ∧ a Source.design_guidelines = 0 := by
  have hv : (allocate_tokens 6000 (get_priorities_by_objective "informative")
      tWithZeroWeightContent).map viewAlloc = some (5500, 500, 0, 0, 0) := by
    norm_num +decide [allocate_tokens, capLoop, capStep, distLoop, preCapAlloc, firstPass,
      totalPriority, activeSources, sourceOrder, capCandidates, argmaxKey, setVal, pyInt,
      sumAlloc, viewAlloc, get_priorities_by_objective, tWithZeroWeightContent]
  cases heq : allocate_tokens 6000 (get_priorities_by_objective "informative")
      tWithZeroWeightContent with
  | none => rw [heq] at hv; exact absurd hv (by simp)
  | some a =>
    refine ⟨a, rfl, allocate_tokens_zero_weight_zero 6000 _ _ a ?_ ?_ heq
      Source.design_guidelines ?_⟩
    · intro s
      cases s <;> norm_num +decide [get_priorities_by_objective]
    · intro s
      cases s <;> norm_num [tWithZeroWeightContent]
    · norm_num +decide [get_priorities_by_objective]

/-- For non-negative weights, the enforcement pass returns exactly when every
candidate priority sum it divides by is positive. -/
lemma capLoop_isSome_iff_divLoop {p : Source → ℚ} {t : Source → ℤ}
    {active : List Source} (hp : ∀ x, 0 ≤ p x) :
    ∀ (l : List Source) (a : Source → ℤ),
      (capLoop p t active l a).isSome = true ↔ divLoop p t active l a = true := by
  intro l
  induction l with
  | nil => intro a; simp [capLoop, divLoop]
  | cons s rest ih =>
    intro a
    simp only [capLoop, capStep, divLoop]
    by_cases h1 : t s < a s
    · rw [if_pos h1, if_pos h1]
      set a1 := setVal a s (t s) with ha1
      set cands := capCandidates t active s a1 with hcands
      by_cases h2 : cands = []
      · rw [if_pos h2, if_pos h2]
        simp only [Option.some_bind]
        exact ih a1
      · rw [if_neg h2, if_neg h2]
        by_cases h3 : (List.map p cands).sum = 0
        · rw [if_pos h3]
          have hnp : ¬ 0 < (List.map p cands).sum := by
            rw [h3]
            exact lt_irrefl 0
          rw [if_neg hnp]
          simp
        · have hpos : 0 < (List.map p cands).sum := by
            refine lt_of_le_of_ne (List.sum_nonneg ?_) (Ne.symm h3)
            intro q hq
            obtain ⟨c, _, rfl⟩ := List.mem_map.mp hq
            exact hp c
          rw [if_neg h3, if_pos hpos]
          by_cases h4 : 0 < (distLoop p (List.map p cands).sum cands (a1, a s - t s)).2
          · rw [if_pos h4, if_pos h4]
            simp only [Option.some_bind]
            exact ih _
          · rw [if_neg h4, if_neg h4]
            simp only [Option.some_bind]
            exact ih _
    · rw [if_neg h1, if_neg h1]
      simp only [Option.some_bind]
      exact ih a

/-- C6: `_allocate_tokens` raises an unguarded `ZeroDivisionError` on concrete
inputs hitting each of its two division sites — all content on zero-weight
sources (the weight-normalization divisor), and a clipped source whose only
redistribution candidate has weight 0 (the candidate-share divisor) — and, for
non-negative weights, it returns normally exactly when every weight sum used
as a divisor is strictly positive. -/
theorem allocate_tokens_div_zero :
    allocate_tokens 100 pAllZero tAllContent = none ∧
    allocate_tokens 100 pChunksOnly tSmallChunks = none ∧
    (∀ (B : ℤ) (p : Source → ℚ) (t : Source → ℤ), (∀ s, 0 ≤ p s) →
      ((allocate_tokens B p t).isSome = true ↔ divisorsPositive B p t = true)) := by
  refine ⟨?_, ?_, ?_⟩
  · norm_num +decide [allocate_tokens, totalPriority, activeSources, sourceOrder,
      pAllZero, tAllContent]
  · norm_num +decide [allocate_tokens, capLoop, capStep, distLoop, preCapAlloc, firstPass,
      totalPriority, activeSources, sourceOrder, capCandidates, argmaxKey, setVal, pyInt,
      sumAlloc, pChunksOnly, tSmallChunks]
  · intro B p t hp
    unfold allocate_tokens divisorsPositive
    by_cases hact : activeSources t = []
    · rw [if_pos hact, if_pos hact]
      simp
    · rw [if_neg hact, if_neg hact]
      by_cases htot : totalPriority p t = 0
      · rw [if_pos htot]
        have hnp : ¬ 0 < totalPriority p t := by
          rw [htot]
          exact lt_irrefl 0
        rw [if_neg hnp]
        simp
      · have hpos : 0 < totalPriority p t := by
          refine lt_of_le_of_ne ?_ (Ne.symm htot)
          unfold totalPriority
          refine List.sum_nonneg ?_
          intro q hq
          obtain ⟨c, _, rfl⟩ := List.mem_map.mp hq
          exact hp c
        rw [if_neg htot, if_pos hpos]
        exact capLoop_isSome_iff_divLoop hp sourceOrder _

/-- Witness for C6's return condition on a concrete input whose run clips one
source and divides by a positive candidate weight sum. -/
theorem allocate_tokens_div_zero_witness :
    divisorsPositive 100 pHalf tHalf = true :=
  (allocate_tokens_div_zero.2.2 100 pHalf tHalf
    (fun s => by cases s <;> norm_num [pHalf])).mp
    (by norm_num +decide [allocate_tokens, capLoop, capStep, distLoop, preCapAlloc,
      firstPass, totalPriority, activeSources, sourceOrder, capCandidates, argmaxKey,
      setVal, pyInt, sumAlloc, pHalf, tHalf])

/-- A conversion error on any comma-token aborts the index loop
(the `ValueError` escapes to the handler). -/
lemma indicesLoop_none {n : ℕ} :
    ∀ (parts : List String) (acc : List ℕ),
      (∃ part ∈ parts, parsePyInt (pyStrip part) = none) →
      indicesLoop n parts acc = none := by
  intro parts
  induction parts with
  | nil =>
    intro acc h
    simp at h
  | cons q rest ih =>
    intro acc h
    rw [indicesLoop]
    cases hq : parsePyInt (pyStrip q) with
    | none => rfl
    | some v =>
      obtain ⟨part, hmem, hbad⟩ := h
      rcases List.mem_cons.mp hmem with rfl | hmem2
      · rw [hq] at hbad
        exact absurd hbad (by simp)
      · dsimp only
        split_ifs <;> exact ih _ ⟨part, hmem2, hbad⟩

/-- Looking every position of a list up in itself returns the list. -/
lemma filterMap_getElem_range {α : Type} (l : List α) :
    (List.range l.length).filterMap (fun i => l[i]?) = l := by
  induction l with
  | nil => rfl
  | cons x xs ih =>
    rw [List.length_cons, List.range_succ_eq_map, List.filterMap_cons]
    simp only [List.getElem?_cons_zero, List.filterMap_map, Function.comp_def,
      List.getElem?_cons_succ]
    rw [ih]

/-- A `"0"` reply selects no indices. -/
lemma relevantIndices_zero_reply {n : ℕ} {reply : String} (h : pyStrip reply = "0") :
    relevantIndices n reply = [] := by
  simp [relevantIndices, h]

/-- A reply with an unconvertible token selects every index. -/
lemma relevantIndices_bad_token {n : ℕ} {reply : String}
    (h : ∃ part ∈ pySplit (pyStrip reply) ',', parsePyInt (pyStrip part) = none) :
    relevantIndices n reply = List.range n := by
  have hstr : pyStrip reply ≠ "0" := by
    intro h0
    obtain ⟨part, hmem, hbad⟩ := h
    rw [h0] at hmem
    have hs : pySplit "0" ',' = ["0"] := by decide
    rw [hs] at hmem
    simp at hmem
    rw [hmem] at hbad
    exact absurd hbad (by decide)
  simp only [relevantIndices]
  rw [if_pos hstr, indicesLoop_none (pySplit (pyStrip reply) ',') [] h]

/-- C4: for inputs that reach the model call, a reply stripping to exactly
`"0"` makes both relevance filters return the empty list, while a reply
containing a token that fails `int()` conversion makes them return the whole
input unchanged. -/
theorem filters_asymmetric_fallback :
    (∀ (sections : List String) (reply : String), sections ≠ [] →
      (pyStrip reply = "0" → filter_relevant_sections sections reply = []) ∧
      ((∃ part ∈ pySplit (pyStrip reply) ',', parsePyInt (pyStrip part) = none) →
        filter_relevant_sections sections reply = sections)) ∧
    (∀ (α : Type) (chunks : List α) (reply : String), 5 < chunks.length →
      (pyStrip reply = "0" → filter_relevant_chunks chunks reply = []) ∧
      ((∃ part ∈ pySplit (pyStrip reply) ',', parsePyInt (pyStrip part) = none) →
        filter_relevant_chunks chunks reply = chunks)) := by
  constructor
  · intro sections reply hne
    constructor
    · intro h0
      rw [filter_relevant_sections, if_neg hne, relevantIndices_zero_reply h0]
      rfl
    · intro hbad
      rw [filter_relevant_sections, if_neg hne, relevantIndices_bad_token hbad]
      exact filterMap_getElem_range sections
  · intro α chunks reply hlen
    have hne : ¬ chunks.length ≤ 5 := not_le.mpr hlen
    constructor
    · intro h0
      rw [filter_relevant_chunks, if_neg hne, relevantIndices_zero_reply h0]
      rfl
    · intro hbad
      rw [filter_relevant_chunks, if_neg hne, relevantIndices_bad_token hbad]
      exact filterMap_getElem_range chunks

/-- Witness for C4 on concrete inputs: the literal `"0"` reply empties both
filters, the reply `"1, x, 3"` (non-numeric token) keeps everything. -/
theorem filters_asymmetric_fallback_witness :
    filter_relevant_sections ["a", "b"] " 0 " = [] ∧
    filter_relevant_sections ["a", "b"] "1, x, 3" = ["a", "b"] ∧
    filter_relevant_chunks [1, 2, 3, 4, 5, 6] "0" = ([] : List ℕ) ∧
    filter_relevant_chunks [1, 2, 3, 4, 5, 6] "1, x, 3" = [1, 2, 3, 4, 5, 6] :=
  ⟨(filters_asymmetric_fallback.1 ["a", "b"] " 0 " (by decide)).1 (by decide),
   (filters_asymmetric_fallback.1 ["a", "b"] "1, x, 3" (by decide)).2 (by decide),
   (filters_asymmetric_fallback.2 ℕ [1, 2, 3, 4, 5, 6] "0" (by decide)).1 (by decide),
   (filters_asymmetric_fallback.2 ℕ [1, 2, 3, 4, 5, 6] "1, x, 3" (by decide)).2
     (by decide)⟩

/-- Index lookups into a list only ever produce elements of the list. -/
lemma mem_of_filterMap_getElem {α : Type} {l : List α} {idxs : List ℕ} :
    ∀ x ∈ idxs.filterMap (fun i => l[i]?), x ∈ l := by
  intro x hx
  obtain ⟨i, _, hget⟩ := List.mem_filterMap.mp hx
  exact List.getElem?_mem hget

/-- C10: when the reply parses without a conversion error, both filters return
only elements of their input, in the order the indices appear in the reply;
a repeated index duplicates its item, so the output need not be a subsequence
of the input (the concrete run on reply `"2, 1, 1"` returns `["b", "a", "a"]`
from input `["a", "b"]`, and the out-of-range index in `"5, 2"` is silently
dropped). -/
theorem filters_membership_order :
    (∀ (sections : List String) (reply : String),
      (∀ part ∈ pySplit (pyStrip reply) ',', parsePyInt (pyStrip part) ≠ none) →
      ∀ x ∈ filter_relevant_sections sections reply, x ∈ sections) ∧
    (∀ (α : Type) (chunks : List α) (reply : String),
      (∀ part ∈ pySplit (pyStrip reply) ',', parsePyInt (pyStrip part) ≠ none) →
      ∀ x ∈ filter_relevant_chunks chunks reply, x ∈ chunks) ∧
    filter_relevant_sections ["a", "b"] "2, 1, 1" = ["b", "a", "a"] ∧
    filter_relevant_sections ["a", "b"] "5, 2" = ["b"] := by
  refine ⟨?_, ?_, by decide, by decide⟩
  · intro sections reply _ x hx
    rw [filter_relevant_sections] at hx
    by_cases hne : sections = []
    · rw [if_pos hne] at hx
      simp at hx
    · rw [if_neg hne] at hx
      exact mem_of_filterMap_getElem x hx
  · intro α chunks reply _ x hx
    rw [filter_relevant_chunks] at hx
    by_cases hle : chunks.length ≤ 5
    · rw [if_pos hle] at hx
      exact hx
    · rw [if_neg hle] at hx
      exact mem_of_filterMap_getElem x hx

/-- Witness for C10's membership on a concrete cleanly-parsing reply. -/
theorem filters_membership_order_witness : ("b" : String) ∈ ["a", "b"] :=
  filters_membership_order.1 ["a", "b"] "2,1" (by decide) "b" (by decide)

/-- C9: `_select_relevant_sources` equals the claim's fixed selection table on
every objective string, the four known rows included, with every unknown
string mapped to the informative row. -/
theorem select_relevant_sources_table :
    ∀ (objective : String) (s : Source),
      select_relevant_sources objective s = specSelectionTable objective s := by
  intro o s
  by_cases h1 : o = "informative"
  · subst h1
    revert s
    decide
  · by_cases h2 : o = "hypothesis"
    · subst h2
      revert s
      decide
    · by_cases h3 : o = "benchmark"
      · subst h3
        revert s
        decide
      · by_cases h4 : o = "objectives"
        · subst h4
          revert s
          decide
        · have hor : ¬ (o = "hypothesis" ∨ o = "benchmark") := fun h => h.elim h2 h3
          unfold select_relevant_sources specSelectionTable
          rw [if_neg h1, if_neg h2, if_neg h3, if_neg h4, if_neg hor, if_neg h4]
          cases s <;> rfl

/-- The scorer keeps the underlying record. -/
lemma scoreRecord_base (scores : List ℚ) (ir : ℕ × Passage) :
    (scoreRecord scores ir).base = ir.2 := by
  unfold scoreRecord
  cases scores[ir.1]? <;> rfl

/-- Every scored record satisfies the combined-score formula (in the
missing-score arm both sides are `0.3 × similarity`). -/
lemma scoreRecord_formula (scores : List ℚ) (ir : ℕ × Passage) :
    (scoreRecord scores ir).combined_score
      = 0.3 * (scoreRecord scores ir).base.similarity_score
        + 0.7 * ((scoreRecord scores ir).rerank_score / 10) := by
  unfold scoreRecord
  cases scores[ir.1]? <;> norm_num

/-- C8: the reranker returns exactly as many records as it was given, a
permutation of the input records, each carrying
`combined_score = 0.3 × similarity_score + 0.7 × (rerank_score / 10)`,
sorted by combined score descending; the empty input yields the empty list. -/
theorem rerank_results_spec :
    (∀ (results : List Passage) (reply : String),
      (rerank_results results reply).length = results.length) ∧
    (∀ (results : List Passage) (reply : String),
      ((rerank_results results reply).map ScoredPassage.base).Perm results) ∧
    (∀ (results : List Passage) (reply : String),
      ∀ x ∈ rerank_results results reply,
        x.combined_score
          = 0.3 * x.base.similarity_score + 0.7 * (x.rerank_score / 10)) ∧
    (∀ (results : List Passage) (reply : String),
      (rerank_results results reply).Pairwise
        (fun a b => b.combined_score ≤ a.combined_score)) ∧
    (∀ reply, rerank_results [] reply = []) := by
  have hbase : ∀ (results : List Passage) (scores : List ℚ),
      (results.enum.map (scoreRecord scores)).map ScoredPassage.base = results := by
    intro results scores
    have h1 : (results.enum.map (scoreRecord scores)).map ScoredPassage.base
        = results.enum.map Prod.snd := by
      rw [List.map_map]
      exact List.map_congr_left (fun ir _ => scoreRecord_base scores ir)
    rw [h1, List.enum_map_snd]
  refine ⟨?_, ?_, ?_, ?_, fun reply => rfl⟩
  · intro results reply
    unfold rerank_results
    by_cases h : results = []
    · rw [if_pos h, h]
      rfl
    · rw [if_neg h, List.length_mergeSort, List.length_map, List.enum_length]
  · intro results reply
    unfold rerank_results
    by_cases h : results = []
    · rw [if_pos h, h]
      rfl
    · rw [if_neg h]
      have hperm := List.mergeSort_perm
        (results.enum.map (scoreRecord
          (padScores ((pySplit (pyStrip reply) '\n').filterMap
            (fun line => parsePyFloat (pyStrip line))) results.length)))
        (fun x y => decide (y.combined_score ≤ x.combined_score))
      have := hperm.map ScoredPassage.base
      rwa [hbase] at this
  · intro results reply x hx
    unfold rerank_results at hx
    by_cases h : results = []
    · rw [if_pos h] at hx
      simp at hx
    · rw [if_neg h] at hx
      have hx2 := List.mem_mergeSort.mp hx
      obtain ⟨ir, _, rfl⟩ := List.mem_map.mp hx2
      exact scoreRecord_formula _ ir
  · intro results reply
    unfold rerank_results
    by_cases h : results = []
    · rw [if_pos h]
      exact List.Pairwise.nil
    · rw [if_neg h]
      have hs := @List.sorted_mergeSort ScoredPassage
        (fun x y => decide (y.combined_score ≤ x.combined_score))
        (fun a b c hab hbc =>
          decide_eq_true (le_trans (of_decide_eq_true hbc) (of_decide_eq_true hab)))
        (fun a b => by
          rcases le_total b.combined_score a.combined_score with hle | hle
          · simp [hle]
          · simp [hle])
        (results.enum.map (scoreRecord
          (padScores ((pySplit (pyStrip reply) '\n').filterMap
            (fun line => parsePyFloat (pyStrip line))) results.length)))
      exact hs.imp (fun hab => of_decide_eq_true hab)

/-- Witness for C8 on a concrete run: one passage, unparseable reply line, so
the padded score 0 gives `combined_score = 0.3 × 0 + 0.7 × (0 / 10)`. -/
theorem rerank_results_spec_witness :
    (⟨⟨"a", 0⟩, 0, 0⟩ : ScoredPassage).combined_score
      = 0.3 * (⟨⟨"a", 0⟩, 0, 0⟩ : ScoredPassage).base.similarity_score
        + 0.7 * ((⟨⟨"a", 0⟩, 0, 0⟩ : ScoredPassage).rerank_score / 10) ∧
    (rerank_results [⟨"a", 0⟩] "x").length = 1 := by
  have h0 : (pySplit (pyStrip "x") '\n').filterMap
      (fun line => parsePyFloat (pyStrip line)) = ([] : List ℚ) := by
    decide
  have heq : rerank_results [⟨"a", 0⟩] "x" = [⟨⟨"a", 0⟩, 0, 0⟩] := by
    simp only [rerank_results, h0]
    norm_num [padScores, scoreRecord, List.enum, List.enumFrom, List.mergeSort_singleton]
  refine ⟨rerank_results_spec.2.2.1 [⟨"a", 0⟩] "x" _ ?_,
    rerank_results_spec.1 [⟨"a", 0⟩] "x"⟩
  rw [heq]
  exact List.mem_singleton_self _

/-- C7: whenever the initial token estimates of the five joined source blocks
sum to at most the budget, `_compress_context` returns every block unchanged
and `total_tokens` equal to that sum — for every summarization oracle, so no
compression call can influence the result, and the token allocator is never
consulted. -/
theorem compress_context_skip
    (oracle : String → String → String → ℤ → String) (query : String)
    (chunk_texts product_g design_g benchmark_items team_obj : List String)
    (objective : String) (max_total_tokens : ℤ)
    (h : (((sourceOrder.map (initialTokens chunk_texts product_g design_g
        benchmark_items team_obj)).sum : ℤ)) ≤ max_total_tokens) :
    compress_context oracle query chunk_texts product_g design_g benchmark_items
        team_obj objective max_total_tokens
      = some ⟨joinBlocks chunk_texts, joinBlocks product_g, joinBlocks design_g,
          joinBlocks benchmark_items, joinBlocks team_obj,
          (sourceOrder.map (initialTokens chunk_texts product_g design_g
            benchmark_items team_obj)).sum⟩ := by
  simp only [compress_context]
  rw [if_pos h]

/-- Witness for C7: one 4-character chunk, estimate 1 ≤ 6000, everything is
returned unchanged with `total_tokens = 1` under a constant oracle. -/
theorem compress_context_skip_witness :
    compress_context (fun _ _ _ _ => "") "q" ["abcd"] [] [] [] [] "informative" 6000
      = some ⟨"abcd", "", "", "", "", 1⟩ := by
  rw [compress_context_skip (fun _ _ _ _ => "") "q" ["abcd"] [] [] [] []
    "informative" 6000 (by decide)]
  decide
